import Mathlib

/-!
Shallow embedding of the decode-and-suppress pipeline of
`src/CenterNet/core/utils/dataprocessing/prediction.py` (class `Prediction`).

Tensors of floats are modelled over `ℚ`.  A detection row (one entry of the
`ids`/`scores`/`bboxes` tensors) is a `Det` record.  A batch item is a
`List Det`; a batch is a `List (List Det)`.  Heatmap, offset and wh tensors
are total functions from indices to `ℚ` together with explicit bounds.
Fallible tensor operations (`torch.topk` with too large `k`, `reshape` with a
non-divisible size, the `return` of an unbound variable when the nms branch
is skipped) are modelled with `Option`.
-/

namespace CenterNetPred

/-- One detection row: class id, confidence score and box corners.
All six fields are float tensor entries in the source, modelled as `ℚ`. -/
structure Det where
  id : ℚ
  score : ℚ
  xmin : ℚ
  ymin : ℚ
  xmax : ℚ
  ymax : ℚ
  deriving DecidableEq

/-- Default row used for out-of-range list reads. -/
def det0 : Det := ⟨0, 0, 0, 0, 0, 0⟩

/-- The sentinel row written by the confidence gate (lines 139-144):
`torch.ones_like(...) * -1` in every component. -/
def sentinelDet : Det := ⟨-1, -1, -1, -1, -1, -1⟩

/-- `torch.where(v < 0, v * -1, v)` (lines 69-74), applied componentwise. -/
def absQ (x : ℚ) : ℚ := if x < 0 then -x else x

/-- Multiply every component of a row by a mask value
(lines 61-66: `ids*mask`, `scores*mask`, `xmin*mask`, ...). -/
def smulDet (m : ℚ) (d : Det) : Det :=
  ⟨d.id * m, d.score * m, d.xmin * m, d.ymin * m, d.xmax * m, d.ymax * m⟩

/-- Componentwise `torch.where(v < 0, v * -1, v)` (lines 69-74). -/
def absDet (d : Det) : Det :=
  ⟨absQ d.id, absQ d.score, absQ d.xmin, absQ d.ymin, absQ d.xmax, absQ d.ymax⟩

/-- `bboxes_concat * self._scale` (lines 184 and 187): only the four box
coordinates are multiplied by the scale; class id and score are not. -/
def scaleBoxDet (s : ℚ) (d : Det) : Det :=
  { d with xmin := d.xmin * s, ymin := d.ymin * s,
           xmax := d.xmax * s, ymax := d.ymax * s }

/-- Confidence gating (lines 138-144): keep the row iff
`score > except_class_thresh`, otherwise overwrite every component with -1. -/
def gateDet (thresh : ℚ) (d : Det) : Det :=
  if thresh < d.score then d else sentinelDet

/-- `scores.argsort(dim=0, descending=True)` followed by indexing
(lines 33-39): sort the rows by score, largest first.  Modelled with the
stable insertion sort of Mathlib; the tie order among equal scores is the
deterministic order of the underlying sort in the source, which no claim
depends on. -/
def sortScoreDesc (rows : List Det) : List Det :=
  List.insertionSort (fun a b => b.score ≤ a.score) rows

/-- The quantity `w * h` of lines 49-54 for a pair of (already sorted) rows:
`w = max(x2[i], x2[j]) - max(x1[i], x1[j]) + 1` and likewise for `h`.
Both corners use `torch.max`, so this is not the intersection area. -/
def interHeur (a b : Det) : ℚ :=
  let ww := max a.xmax b.xmax - max a.xmin b.xmin + 1
  let hh := max a.ymax b.ymax - max a.ymin b.ymin + 1
  ww * hh

/-- Line 55: `overlap = (w * h) / (x1[i] + x1[i+1:] - (w * h))`. -/
def overlapQ (a b : Det) : ℚ :=
  interHeur a b / (a.xmin + b.xmin - interHeur a b)

/-- One iteration of the `while` loop (lines 48-57): the whole suffix
`mask[i+1:]` is overwritten with
`torch.where(overlap > thresh, 1, -1)` computed against pick `i`. -/
def updateSuffix (t : ℚ) (rows : List Det) (i : ℕ) (mask : List ℚ) : List ℚ :=
  mask.enum.map fun q =>
    if i < q.1 then
      if t < overlapQ (rows.getD i det0) (rows.getD q.1 det0) then 1 else -1
    else q.2

/-- The mask produced by the loop of lines 46-57: start from
`torch.ones_like(x1)` and run `updateSuffix` for `i = 0 .. len-2`. -/
def nmsMask (t : ℚ) (rows : List Det) : List ℚ :=
  (List.range (rows.length - 1)).foldl
    (fun mask i => updateSuffix t rows i mask)
    (List.replicate rows.length 1)

/-- `Prediction._non_maximum_suppression` (lines 16-77) on one class
partition: return single rows unchanged (lines 29-30), otherwise sort by
descending score, compute the mask, multiply every component by it
(lines 61-66) and re-absolute negatives (lines 69-74). -/
def nmsCore (t : ℚ) (rows : List Det) : List Det :=
  if rows.length = 1 then rows
  else
    ((sortScoreDesc rows).zip (nmsMask t (sortScoreDesc rows))).map fun q =>
      absDet (smulDet q.2 q.1)

/-- `ids.unique()` over the whole batch (line 154): the sorted list of
distinct id values occurring in any batch item. -/
def uniqueIdsOf (batch : List (List Det)) : List ℚ :=
  List.insertionSort (fun a b => a ≤ b)
    ((batch.map (fun rows => rows.map Det.id)).flatten.dedup)

/-- The nms branch for one batch item (lines 157-177 plus the scaling of
line 184): partition the rows of the item by each unique id, suppress each
partition with `nmsCore`, concatenate in the order of the unique ids and
multiply the box coordinates by the scale. -/
def nmsPathItem (t s : ℚ) (uids : List ℚ) (rows : List Det) : List Det :=
  (uids.flatMap fun u => nmsCore t (rows.filter fun r => decide (r.id = u))).map
    (scaleBoxDet s)

/-- In-bounds coordinates of the 3x3 window centred at `(y, x)` of an
`H x W` grid: `nn.MaxPool2d(3, stride=1, padding=1)` (line 11) looks at the
cells at Chebyshev distance at most 1; the padding cells never contribute
to a max over finite values. -/
def nbhd (H W y x : ℕ) : List (ℕ × ℕ) :=
  ((List.range H).filter fun r => decide (y ≤ r + 1) && decide (r ≤ y + 1)).flatMap
    fun r =>
      ((List.range W).filter fun c => decide (x ≤ c + 1) && decide (c ≤ x + 1)).map
        fun c => (r, c)

/-- The 3x3 max pool value at `(y, x)`.  The centre cell belongs to the
window, so seeding the fold with it yields exactly the window max. -/
def poolMax (f : ℕ → ℕ → ℚ) (H W y x : ℕ) : ℚ :=
  (nbhd H W y x).foldl (fun acc p => max acc (f p.1 p.2)) (f y x)

/-- Lines 84-85: `keep = maxpool(heatmap) == heatmap` and
`heatmap = keep * heatmap` for one channel: the value survives iff it
equals the max of its 3x3 neighbourhood, otherwise it becomes 0. -/
def peakFilter (f : ℕ → ℕ → ℚ) (H W y x : ℕ) : ℚ :=
  if poolMax f H W y x = f y x then f y x else 0

/-- Line 89: `heatmap.reshape((batch, -1))` applied to the filtered heatmap
of one batch item: flat index `n` over the joint (class, y, x) space reads
channel `n / (H*W)` at row `(n % (H*W)) / W`, column `(n % (H*W)) % W`. -/
def flatFiltered (hm : ℕ → ℕ → ℕ → ℚ) (C H W : ℕ) : List ℚ :=
  (List.range (C * H * W)).map fun n =>
    peakFilter (hm (n / (H * W))) H W (n % (H * W) / W) (n % (H * W) % W)

/-- Line 90: `topk(k, largest=True, sorted=True)` on one batch item,
returning (flat index, value) pairs, values descending.  `torch.topk`
raises when `k` exceeds the size of the ranked axis; the unguarded part is
`topkTake`.  Ties are broken by the deterministic order of the source
select, modelled as ascending flat index (stable sort over `enum`). -/
def topkTake (k : ℕ) (l : List ℚ) : List (ℕ × ℚ) :=
  (List.insertionSort (fun a b : ℕ × ℚ => b.2 ≤ a.2) l.enum).take k

/-- `topk` with the failure of `k > size` made explicit. -/
def topkSelect (k : ℕ) (l : List ℚ) : Option (List (ℕ × ℚ)) :=
  if k ≤ l.length then some (topkTake k l) else none

/-- The `permute(0, 2, 3, 1).reshape((batch, -1, 2))` view of the offset
and wh tensors (lines 103-105) for one batch item: entry `(s, c)` of the
reshaped view is entry `(c, s / W, s % W)` of the original channel-first
tensor. -/
def offsetReshaped (t : ℕ → ℕ → ℕ → ℚ) (W s c : ℕ) : ℚ :=
  t c (s / W) (s % W)

/-- Box reconstruction for one pick `(flat index, score)` of one batch item
(lines 93-136): class id by `floor_divide` with `H*W`, spatial index by
`fmod`, grid row and column by `floor_divide`/`fmod` with `W`, offset and
wh gathered at the picks own spatial position through the reshaped view
(channels 0 and 1), and corners centre minus/plus half extent.  The pairing of
each pick with its own batch item by the gather index tensors of lines
112-125 is modelled separately by `gatherIndexRows`. -/
def reconDet (off wh : ℕ → ℕ → ℕ → ℚ) (H W : ℕ) (p : ℕ × ℚ) : Det :=
  let n := p.1
  let s := n % (H * W)
  let cx : ℚ := (s % W : ℕ) + offsetReshaped off W s 0
  let cy : ℚ := (s / W : ℕ) + offsetReshaped off W s 1
  let wv := offsetReshaped wh W s 0
  let hv := offsetReshaped wh W s 1
  ⟨(n / (H * W) : ℕ), p.2, cx - wv / 2, cy - hv / 2, cx + wv / 2, cy + hv / 2⟩

/-- The configuration stored by `Prediction.__init__` (lines 6-14).  The
constructor only assigns the attributes; it performs no validation. -/
structure PredCfg where
  batchSize : ℕ
  topk : ℕ
  scale : ℚ
  nms : Bool
  exceptClassThresh : ℚ
  nmsThresh : ℚ
  deriving DecidableEq

/-- `Prediction.__init__` (lines 6-14): stores the six parameters and
nothing else — in particular no check on `topk`, `scale` or `nms_thresh`
happens at construction time. -/
def initPrediction (batchSize topk : ℕ) (scale : ℚ) (nms : Bool)
    (exceptClassThresh nmsThresh : ℚ) : PredCfg :=
  ⟨batchSize, topk, scale, nms, exceptClassThresh, nmsThresh⟩

/-- The per-item pipeline of lines 84-144: peak filtering, top-k
selection, box reconstruction and confidence gating, for each batch item
`b = 0 .. B-1` (the `ids`/`scores`/`bboxes` tensors before the nms
branch). -/
def forwardItems (cfg : PredCfg) (hm off wh : ℕ → ℕ → ℕ → ℕ → ℚ)
    (B C H W : ℕ) : List (List Det) :=
  (List.range B).map fun b =>
    (topkTake cfg.topk (flatFiltered (hm b) C H W)).map fun p =>
      gateDet cfg.exceptClassThresh (reconDet (off b) (wh b) H W p)

/-- `Prediction.forward` (lines 79-187) on a batch of `B` items with `C`
classes and an `H x W` grid.  `none` models a raised error: `topk` with
`k > C*H*W` (line 90), the misaddressed gather when `B` exceeds the
configured batch size (lines 112-125, see `gatherIndexRows`), and the
unbound `ids_concat` at line 184 when `nms` is enabled with a threshold
outside (0,1) so the branch of lines 147-182 is skipped. -/
def forward (cfg : PredCfg) (hm off wh : ℕ → ℕ → ℕ → ℕ → ℚ)
    (B C H W : ℕ) : Option (List (List Det)) :=
  if B ≤ cfg.batchSize ∧ cfg.topk ≤ C * H * W then
    if cfg.nms then
      if 0 < cfg.nmsThresh ∧ cfg.nmsThresh < 1 then
        some ((forwardItems cfg hm off wh B C H W).map
          (nmsPathItem cfg.nmsThresh cfg.scale
            (uniqueIdsOf (forwardItems cfg hm off wh B C H W))))
      else none
    else
      some ((forwardItems cfg hm off wh B C H W).map fun rows =>
        rows.map (scaleBoxDet cfg.scale))
  else none

/-- The flattened concatenation built at lines 112-119 for the x gather:
`arange(batch_size)[:B]` repeated `topk` times along the rows, then the
top-k spatial indices, then `zeros_like(batch_indices)`, all flattened in
row-major order (`torch.cat(..., dim=0)` before `reshape((3, -1))`). -/
def gatherFlat (batchSize topk B : ℕ) (tIdx : List (List ℕ)) : List ℕ :=
  ((((List.range batchSize).take B).map (fun b => List.replicate topk b))
      ++ tIdx
      ++ (((List.range batchSize).take B).map (fun _ => List.replicate topk 0))).flatten

/-- `reshape((3, -1))` (lines 119-120): fails unless the size is divisible
by 3, otherwise yields the three rows used to index the reshaped offset/wh
tensors at line 124. -/
def gatherReshape3 (l : List ℕ) : Option (List ℕ × List ℕ × List ℕ) :=
  if l.length % 3 = 0 then
    some (l.take (l.length / 3), (l.drop (l.length / 3)).take (l.length / 3),
      l.drop (2 * (l.length / 3)))
  else none

/-- The three index rows `offset_xs[0]`, `offset_xs[1]`, `offset_xs[2]` of
lines 112-124. -/
def gatherIndexRows (batchSize topk B : ℕ) (tIdx : List (List ℕ)) :
    Option (List ℕ × List ℕ × List ℕ) :=
  gatherReshape3 (gatherFlat batchSize topk B tIdx)

/-- The batch-index row that pairs each pick with its own batch item:
item `b` repeated `topk` times, for `b = 0 .. B-1`. -/
def correctBatchRow (B topk : ℕ) : List ℕ :=
  (List.range B).flatMap fun b => List.replicate topk b

/-- Modelled from the claim wording of C4 (spec 4.2): direct index
formulas `classId = flatIndex // (height*width)`,
`gridY = (flatIndex % (height*width)) // width`,
`gridX = (flatIndex % (height*width)) % width`, offset and size read
directly at `(channel, gridY, gridX)`, and corners
`xmin = gridX + offset_x - w/2` and so on. -/
def reconSpec (off wh : ℕ → ℕ → ℕ → ℚ) (H W : ℕ) (p : ℕ × ℚ) : Det :=
  let flatIndex := p.1
  let gridY := flatIndex % (H * W) / W
  let gridX := flatIndex % (H * W) % W
  let offx := off 0 gridY gridX
  let offy := off 1 gridY gridX
  let wv := wh 0 gridY gridX
  let hv := wh 1 gridY gridX
  ⟨(flatIndex / (H * W) : ℕ), p.2,
    (gridX : ℚ) + offx - wv / 2, (gridY : ℚ) + offy - hv / 2,
    (gridX : ℚ) + offx + wv / 2, (gridY : ℚ) + offy + hv / 2⟩

/-- The provable closed form of `nmsCore` (used to state the amended C8):
a single row is returned unchanged; otherwise the rows are sorted by
descending score and every component is replaced by its absolute value —
the mask step suppresses nothing. -/
def nmsSimple (rows : List Det) : List Det :=
  if rows.length = 1 then rows else (sortScoreDesc rows).map absDet

/-- Number of rows of a batch item carrying class id `c`. -/
def countClass (c : ℚ) (rows : List Det) : ℕ :=
  (rows.filter fun r => decide (r.id = c)).length

/-! ### Basic facts about the componentwise operations -/

lemma absQ_nonneg (x : ℚ) : 0 ≤ absQ x := by
  unfold absQ; split <;> linarith

lemma absQ_neg (x : ℚ) : absQ (-x) = absQ x := by
  unfold absQ
  rcases lt_trichotomy x 0 with h | h | h
  · rw [if_neg (by linarith), if_pos h]
  · subst h; norm_num
  · rw [if_pos (by linarith), if_neg (by linarith), neg_neg]

lemma absDet_smulDet {m : ℚ} (hm : m = 1 ∨ m = -1) (d : Det) :
    absDet (smulDet m d) = absDet d := by
  rcases hm with h | h <;> subst h <;>
    simp [absDet, smulDet, mul_neg_one, absQ_neg]

/-! ### The mask step of `_non_maximum_suppression` is a no-op

The loop of lines 46-57 writes only the values 1 and -1 into the mask, and
multiplying a component by plus or minus 1 and then taking the absolute
value (lines 61-74) erases the sign again, so the suppression step never
removes any detection. -/

lemma foldl_inv {α β : Type} (P : β → Prop) (f : β → α → β) :
    ∀ (l : List α) (init : β), P init → (∀ b a, P b → P (f b a)) →
      P (l.foldl f init)
  | [], _, h0, _ => h0
  | a :: l, init, h0, hstep =>
    foldl_inv P f l (f init a) (hstep init a h0) hstep

lemma mem_updateSuffix {t : ℚ} {rows : List Det} {i : ℕ} {mask : List ℚ}
    {m : ℚ} (h : m ∈ updateSuffix t rows i mask) :
    m = 1 ∨ m = -1 ∨ m ∈ mask := by
  unfold updateSuffix at h
  rcases List.mem_map.1 h with ⟨q, hq, hm⟩
  rw [← hm]
  split_ifs
  · exact Or.inl rfl
  · exact Or.inr (Or.inl rfl)
  · have h2 : q.2 ∈ mask.enum.map Prod.snd := List.mem_map_of_mem _ hq
    rw [List.enum_map_snd] at h2
    exact Or.inr (Or.inr h2)

lemma length_updateSuffix (t : ℚ) (rows : List Det) (i : ℕ) (mask : List ℚ) :
    (updateSuffix t rows i mask).length = mask.length := by
  unfold updateSuffix
  rw [List.length_map, List.enum_length]

lemma nmsMask_mem {t : ℚ} {rows : List Det} {m : ℚ} (h : m ∈ nmsMask t rows) :
    m = 1 ∨ m = -1 := by
  unfold nmsMask at h
  refine foldl_inv (fun mk : List ℚ => ∀ x ∈ mk, x = 1 ∨ x = -1)
    (fun mk i => updateSuffix t rows i mk) (List.range (rows.length - 1))
    (List.replicate rows.length 1)
    (fun x hx => Or.inl (List.eq_of_mem_replicate hx))
    (fun mk i hmk x hx => ?_) m h
  rcases mem_updateSuffix hx with h1 | h1 | h1
  · exact Or.inl h1
  · exact Or.inr h1
  · exact hmk x h1

lemma nmsMask_length (t : ℚ) (rows : List Det) :
    (nmsMask t rows).length = rows.length := by
  unfold nmsMask
  refine foldl_inv (fun mk : List ℚ => mk.length = rows.length) _ _ _ ?_ ?_
  · exact List.length_replicate _ _
  · intro mk i hmk
    rw [length_updateSuffix, hmk]

lemma zip_mask_map : ∀ (l : List Det) (mask : List ℚ),
    mask.length = l.length → (∀ m ∈ mask, m = 1 ∨ m = -1) →
    ((l.zip mask).map fun q => absDet (smulDet q.2 q.1)) = l.map absDet
  | [], _, _, _ => by simp
  | _ :: _, [], hlen, _ => by simp at hlen
  | d :: l, m :: mask, hlen, hmem => by
    simp only [List.zip_cons_cons, List.map_cons]
    rw [absDet_smulDet (hmem m (List.mem_cons_self _ _)) d,
      zip_mask_map l mask (by simpa using hlen)
        (fun x hx => hmem x (List.mem_cons_of_mem _ hx))]

lemma nmsCore_eq_nmsSimple (t : ℚ) (rows : List Det) :
    nmsCore t rows = nmsSimple rows := by
  unfold nmsCore nmsSimple
  split
  · rfl
  · exact zip_mask_map (sortScoreDesc rows) (nmsMask t (sortScoreDesc rows))
      (by rw [nmsMask_length, sortScoreDesc, List.length_insertionSort])
      (fun m hm => nmsMask_mem hm)

/-- C1: in per-class greedy suppression, a later pick whose overlap value
(with the source heuristic denominator) exceeds `nmsThresh` is claimed to be
suppressed and removed from consideration.  Evaluating the embedded
`_non_maximum_suppression` at the failing input — two class-0 picks with
identical boxes (100,100)-(110,110) and scores 9/10 and 7/10, threshold
1/2 — shows the overlap 121/79 exceeds the threshold and yet the
lower-scored pick is returned completely unchanged: the `torch.where`
branches give the mask value 1 (not -1) to high-overlap picks, the mask
suffix is rewritten on every loop iteration, and multiplying by a mask of
plus or minus 1 followed by re-absoluting restores every value, so nothing
is ever suppressed. -/
theorem nms_keeps_overlapping_lower_scored_pick :
    overlapQ ⟨0, 9/10, 100, 100, 110, 110⟩ ⟨0, 7/10, 100, 100, 110, 110⟩ > 1/2 ∧
    nmsCore (1/2) [⟨0, 9/10, 100, 100, 110, 110⟩, ⟨0, 7/10, 100, 100, 110, 110⟩] =
      [⟨0, 9/10, 100, 100, 110, 110⟩, ⟨0, 7/10, 100, 100, 110, 110⟩] := by
  constructor
  · norm_num [overlapQ, interHeur]
  · rw [nmsCore_eq_nmsSimple]
    norm_num [nmsSimple, sortScoreDesc, List.insertionSort, List.orderedInsert,
      absDet, absQ]

/-! ### Peak filtering (C5) -/

lemma mem_nbhd {H W y x : ℕ} {p : ℕ × ℕ} (h : p ∈ nbhd H W y x) :
    p.1 < H ∧ p.2 < W := by
  unfold nbhd at h
  rcases List.mem_flatMap.1 h with ⟨r, hr, hp⟩
  rcases List.mem_map.1 hp with ⟨c, hc, hrc⟩
  rw [← hrc]
  exact ⟨List.mem_range.1 (List.mem_filter.1 hr).1,
    List.mem_range.1 (List.mem_filter.1 hc).1⟩

lemma le_foldl_max (g : ℕ × ℕ → ℚ) :
    ∀ (l : List (ℕ × ℕ)) (acc : ℚ), acc ≤ l.foldl (fun a p => max a (g p)) acc
  | [], acc => le_refl acc
  | p :: l, acc =>
    le_trans (le_max_left acc (g p)) (le_foldl_max g l (max acc (g p)))

lemma foldl_max_le (g : ℕ × ℕ → ℚ) {bnd : ℚ} :
    ∀ (l : List (ℕ × ℕ)) (acc : ℚ), acc ≤ bnd → (∀ p ∈ l, g p ≤ bnd) →
      l.foldl (fun a p => max a (g p)) acc ≤ bnd
  | [], _, ha, _ => ha
  | p :: l, acc, ha, hl =>
    foldl_max_le g l (max acc (g p))
      (max_le ha (hl p (List.mem_cons_self _ _)))
      (fun q hq => hl q (List.mem_cons_of_mem _ hq))

lemma mem_le_foldl_max (g : ℕ × ℕ → ℚ) :
    ∀ (l : List (ℕ × ℕ)) (acc : ℚ) {p : ℕ × ℕ}, p ∈ l →
      g p ≤ l.foldl (fun a p => max a (g p)) acc
  | [], _, _, hp => absurd hp (List.not_mem_nil _)
  | q :: l, acc, p, hp => by
    rcases List.mem_cons.1 hp with h | h
    · subst h
      exact le_trans (le_max_right acc (g p)) (le_foldl_max g l _)
    · exact mem_le_foldl_max g l _ h

lemma peakFilter_le (f : ℕ → ℕ → ℚ) (H W y x : ℕ) (h0 : 0 ≤ f y x) :
    peakFilter f H W y x ≤ f y x := by
  unfold peakFilter
  split
  · exact le_rfl
  · exact h0

/-- C5: applying the 3x3 max-equality peak filter twice yields the same
tensor as applying it once, for every heatmap with values in [0,1]
(stated at each in-bounds position).  A surviving cell keeps its value:
the filtered neighbourhood values are bounded by the original ones, whose
max the cell already attains; a zeroed cell stays zero because both
branches of the filter yield 0 there. -/
theorem peakFilter_idempotent (f : ℕ → ℕ → ℚ) (H W y x : ℕ)
    (hf : ∀ a b, a < H → b < W → 0 ≤ f a b ∧ f a b ≤ 1)
    (hy : y < H) (hx : x < W) :
    peakFilter (fun a b => peakFilter f H W a b) H W y x =
      peakFilter f H W y x := by
  set g : ℕ → ℕ → ℚ := fun a b => peakFilter f H W a b with hg
  by_cases hsur : poolMax f H W y x = f y x
  · have hgyx : g y x = f y x := by
      simp only [hg]
      unfold peakFilter
      rw [if_pos hsur]
    have hub : poolMax g H W y x ≤ g y x := by
      unfold poolMax
      refine foldl_max_le _ _ _ le_rfl ?_
      intro p hp
      rcases mem_nbhd hp with ⟨h1, h2⟩
      have hle1 : g p.1 p.2 ≤ f p.1 p.2 :=
        peakFilter_le f H W p.1 p.2 (hf p.1 p.2 h1 h2).1
      have hle2 : f p.1 p.2 ≤ poolMax f H W y x := by
        unfold poolMax
        exact mem_le_foldl_max _ _ _ hp
      rw [hsur] at hle2
      rw [hgyx]
      exact le_trans hle1 hle2
    have hlb : g y x ≤ poolMax g H W y x := by
      unfold poolMax
      exact le_foldl_max _ _ _
    have hpg : poolMax g H W y x = g y x := le_antisymm hub hlb
    show peakFilter g H W y x = peakFilter f H W y x
    unfold peakFilter
    rw [if_pos hpg, if_pos hsur, hgyx]
  · have hgyx : g y x = 0 := by
      simp only [hg]
      unfold peakFilter
      rw [if_neg hsur]
    show peakFilter g H W y x = peakFilter f H W y x
    unfold peakFilter
    rw [if_neg hsur]
    split
    · exact hgyx
    · rfl

/-- A constant heatmap channel used as the concrete witness input. -/
def halfMap : ℕ → ℕ → ℚ := fun _ _ => 1/2

/-- Witness for C5 at a concrete input: the 2x2 constant heatmap with
value 1/2 satisfies the hypotheses and the filtered map is a fixed point
of the filter at position (0,0). -/
theorem peakFilter_idempotent_witness :
    peakFilter (fun a b => peakFilter halfMap 2 2 a b) 2 2 0 0 =
      peakFilter halfMap 2 2 0 0 :=
  peakFilter_idempotent halfMap 2 2 0 0
    (fun a b _ _ => by norm_num [halfMap]) (by norm_num) (by norm_num)

/-! ### Box reconstruction (C4) -/

/-- C4: the index arithmetic and corner formulas of the embedded box
reconstruction (`floor_divide`/`fmod` decomposition of the flat index, the
gather through the permuted and reshaped offset/wh view at the picks own
spatial position, and centre minus/plus half extent corners) coincide with
the direct formulas of the claim: `classId = flatIndex / (H*W)`,
`gridY = flatIndex % (H*W) / W`, `gridX = flatIndex % (H*W) % W`,
`xmin = gridX + offset_x - w/2`, `ymin = gridY + offset_y - h/2`,
`xmax = gridX + offset_x + w/2`, `ymax = gridY + offset_y + h/2`. -/
theorem reconDet_eq_reconSpec (off wh : ℕ → ℕ → ℕ → ℚ) (H W : ℕ)
    (p : ℕ × ℚ) : reconDet off wh H W p = reconSpec off wh H W p := rfl

/-! ### Partition bookkeeping for the nms path -/

lemma nmsSimple_length (rows : List Det) :
    (nmsSimple rows).length = rows.length := by
  unfold nmsSimple
  split
  · rfl
  · rw [List.length_map, sortScoreDesc, List.length_insertionSort]

lemma indicator_sum_zero (a : ℚ) :
    ∀ (l : List ℚ), a ∉ l →
      ((l.map fun u => if a = u then (1 : ℕ) else 0).sum = 0)
  | [], _ => rfl
  | u :: l, h => by
    have h1 : a ≠ u := fun e => h (e ▸ List.mem_cons_self u l)
    simp only [List.map_cons, List.sum_cons, if_neg h1, Nat.zero_add]
    exact indicator_sum_zero a l fun e => h (List.mem_cons_of_mem u e)

lemma indicator_sum_one (a : ℚ) :
    ∀ (l : List ℚ), l.Nodup → a ∈ l →
      ((l.map fun u => if a = u then (1 : ℕ) else 0).sum = 1)
  | [], _, h => absurd h (List.not_mem_nil a)
  | u :: l, hn, h => by
    rcases List.mem_cons.1 h with h1 | h1
    · subst h1
      simp only [List.map_cons, List.sum_cons, if_pos rfl]
      rw [indicator_sum_zero a l (List.nodup_cons.1 hn).1]
      simp
    · have h2 : a ≠ u := by
        rintro rfl
        exact (List.nodup_cons.1 hn).1 h1
      simp only [List.map_cons, List.sum_cons, if_neg h2, Nat.zero_add]
      exact indicator_sum_one a l (List.nodup_cons.1 hn).2 h1

lemma sum_map_add {α : Type} (f g : α → ℕ) :
    ∀ (l : List α), ((l.map fun a => f a + g a).sum = (l.map f).sum + (l.map g).sum)
  | [] => rfl
  | a :: l => by
    simp only [List.map_cons, List.sum_cons, sum_map_add f g l]
    omega

/-- The class partitions induced by a duplicate-free covering list of ids
split a batch item without losing rows. -/
lemma sum_filter_length :
    ∀ (rows : List Det) (uids : List ℚ), uids.Nodup →
      (∀ r ∈ rows, r.id ∈ uids) →
      ((uids.map fun u => (rows.filter fun r => decide (r.id = u)).length).sum
        = rows.length)
  | [], uids, _, _ => by simp
  | r :: rows, uids, hn, hc => by
    have hr : r.id ∈ uids := hc r (List.mem_cons_self _ _)
    have ih := sum_filter_length rows uids hn
      fun q hq => hc q (List.mem_cons_of_mem _ hq)
    have hmapeq :
        (uids.map fun u => ((r :: rows).filter fun q => decide (q.id = u)).length)
          = uids.map fun u =>
              (rows.filter fun q => decide (q.id = u)).length
                + (if r.id = u then 1 else 0) := by
      refine List.map_congr_left fun u _ => ?_
      by_cases h : r.id = u
      · rw [List.filter_cons_of_pos (by simp [h]), if_pos h, List.length_cons]
      · rw [List.filter_cons_of_neg (by simp [h]), if_neg h, Nat.add_zero]
    rw [List.length_cons, hmapeq, sum_map_add, ih,
      indicator_sum_one r.id uids hn hr]

lemma nmsPathItem_length (t s : ℚ) (uids : List ℚ) (rows : List Det)
    (hn : uids.Nodup) (hc : ∀ r ∈ rows, r.id ∈ uids) :
    (nmsPathItem t s uids rows).length = rows.length := by
  unfold nmsPathItem
  rw [List.length_map, List.length_flatMap]
  have hmapeq :
      (List.map (List.length ∘ fun u =>
          nmsCore t (rows.filter fun r => decide (r.id = u))) uids)
        = uids.map fun u => (rows.filter fun r => decide (r.id = u)).length := by
    refine List.map_congr_left fun u _ => ?_
    simp only [Function.comp_apply]
    rw [nmsCore_eq_nmsSimple, nmsSimple_length]
  rw [hmapeq, sum_filter_length rows uids hn hc]

/-! ### The gather index construction (C10) -/

lemma sum_map_const {α : Type} (c : ℕ) :
    ∀ (l : List α), ((l.map fun _ => c).sum = l.length * c)
  | [] => by simp
  | a :: l => by
    simp only [List.map_cons, List.sum_cons, List.length_cons, sum_map_const c l]
    ring

lemma flatten_length_of_rows {topk : ℕ} :
    ∀ (tIdx : List (List ℕ)), (∀ r ∈ tIdx, r.length = topk) →
      tIdx.flatten.length = tIdx.length * topk
  | [], _ => by simp
  | r :: tIdx, h => by
    simp only [List.flatten_cons, List.length_append, List.length_cons]
    rw [h r (List.mem_cons_self _ _),
      flatten_length_of_rows tIdx fun q hq => h q (List.mem_cons_of_mem _ hq)]
    ring

lemma flatten_map_const_replicate {α : Type} (topk : ℕ) :
    ∀ (l : List α),
      (((l.map fun _ => List.replicate topk (0 : ℕ)).flatten)
        = List.replicate (l.length * topk) 0)
  | [] => by simp
  | a :: l => by
    simp only [List.map_cons, List.flatten_cons, List.length_cons,
      flatten_map_const_replicate topk l]
    have h : (l.length + 1) * topk = topk + l.length * topk := by ring
    rw [h, List.replicate_add]

lemma correctBatchRow_length (B topk : ℕ) :
    (correctBatchRow B topk).length = B * topk := by
  unfold correctBatchRow
  rw [List.length_flatMap]
  have h : (List.map (List.length ∘ fun b => List.replicate topk b)
      (List.range B)) = (List.range B).map fun _ => topk := by
    refine List.map_congr_left fun b _ => ?_
    simp [List.length_replicate]
  rw [h, sum_map_const, List.length_range]

lemma batchRows_flatten (B topk : ℕ) :
    (((List.range B).map fun b => List.replicate topk b).flatten)
      = correctBatchRow B topk := rfl

lemma gatherFlat_decomp (batchSize topk B : ℕ) (tIdx : List (List ℕ)) :
    gatherFlat batchSize topk B tIdx =
      (((List.range (B ⊓ batchSize)).map fun b => List.replicate topk b).flatten)
        ++ (tIdx.flatten
          ++ List.replicate ((B ⊓ batchSize) * topk) 0) := by
  unfold gatherFlat
  rw [List.take_range, List.flatten_append, List.flatten_append,
    flatten_map_const_replicate, List.length_range, List.append_assoc]

/-- C10: the gather index tensors of lines 112-125 pair each pick with its
own batch item exactly when the runtime batch dimension `B` fits in the
configured `batch_size`.  If `B <= batch_size`, the three reshaped rows
are the batch row `0,...,0,1,...,1,...,B-1` (each repeated `topk` times),
the flattened top-k spatial indices aligned pick by pick, and the channel
row of zeros.  If `B > batch_size`, the concatenation has fewer than `3*B`
rows, so the reshape either fails (size not divisible by 3) or yields a
first row that is too short to be the correct batch pairing. -/
theorem gather_index_pairing (batchSize topk B : ℕ) (tIdx : List (List ℕ))
    (hlen : tIdx.length = B) (hrow : ∀ r ∈ tIdx, r.length = topk)
    (ht : 1 ≤ topk) :
    (B ≤ batchSize →
      gatherIndexRows batchSize topk B tIdx =
        some (correctBatchRow B topk, tIdx.flatten,
          List.replicate (B * topk) 0)) ∧
    (batchSize < B → ∀ r1 r2 r3,
      gatherIndexRows batchSize topk B tIdx = some (r1, r2, r3) →
      r1 ≠ correctBatchRow B topk) := by
  have hl2 : tIdx.flatten.length = B * topk := by
    rw [flatten_length_of_rows tIdx hrow, hlen]
  constructor
  · intro hB
    have hmin : B ⊓ batchSize = B := min_eq_left hB
    have hflat : gatherFlat batchSize topk B tIdx =
        correctBatchRow B topk
          ++ (tIdx.flatten ++ List.replicate (B * topk) 0) := by
      rw [gatherFlat_decomp, hmin, batchRows_flatten]
    have hl1 : (correctBatchRow B topk).length = B * topk :=
      correctBatchRow_length B topk
    have hl3 : (List.replicate (B * topk) (0 : ℕ)).length = B * topk :=
      List.length_replicate _ _
    have hltot : (gatherFlat batchSize topk B tIdx).length = 3 * (B * topk) := by
      rw [hflat]
      simp only [List.length_append, hl1, hl2, hl3]
      ring
    unfold gatherIndexRows gatherReshape3
    rw [hltot, hflat]
    have hmod : 3 * (B * topk) % 3 = 0 := Nat.mul_mod_right 3 _
    rw [if_pos hmod]
    have hdiv : 3 * (B * topk) / 3 = B * topk :=
      Nat.mul_div_cancel_left _ (by norm_num)
    rw [hdiv]
    have e1 : (correctBatchRow B topk
        ++ (tIdx.flatten ++ List.replicate (B * topk) 0)).take (B * topk)
        = correctBatchRow B topk := List.take_left' hl1
    have e2 : (correctBatchRow B topk
        ++ (tIdx.flatten ++ List.replicate (B * topk) 0)).drop (B * topk)
        = tIdx.flatten ++ List.replicate (B * topk) 0 := List.drop_left' hl1
    have e3 : (tIdx.flatten ++ List.replicate (B * topk) 0).take (B * topk)
        = tIdx.flatten := List.take_left' hl2
    have e4 : (correctBatchRow B topk
        ++ (tIdx.flatten ++ List.replicate (B * topk) 0)).drop (2 * (B * topk))
        = List.replicate (B * topk) 0 := by
      have h2 : 2 * (B * topk) = B * topk + B * topk := by ring
      rw [h2, ← List.drop_drop, e2, List.drop_left' hl2]
    rw [e1, e2, e3, e4]
  · intro hB r1 r2 r3 heq
    have hmin : B ⊓ batchSize = batchSize := min_eq_right (le_of_lt hB)
    have hflatlen : (gatherFlat batchSize topk B tIdx).length =
        batchSize * topk + (B * topk + batchSize * topk) := by
      rw [gatherFlat_decomp, hmin]
      simp only [List.length_append, hl2, List.length_replicate]
      have hb : (((List.range batchSize).map fun b =>
          List.replicate topk b).flatten).length = batchSize * topk := by
        rw [batchRows_flatten, correctBatchRow_length]
      rw [hb]
    unfold gatherIndexRows gatherReshape3 at heq
    by_cases hmod : (gatherFlat batchSize topk B tIdx).length % 3 = 0
    · rw [if_pos hmod] at heq
      injection heq with heq1
      injection heq1 with ha hbc
      have hr1len : r1.length = (gatherFlat batchSize topk B tIdx).length / 3 := by
        rw [← ha, List.length_take]
        exact min_eq_left (Nat.div_le_self _ _)
      have hlt : (gatherFlat batchSize topk B tIdx).length < 3 * (B * topk) := by
        rw [hflatlen]
        have h1 : batchSize * topk < B * topk :=
          Nat.mul_lt_mul_of_lt_of_le hB le_rfl (by omega)
        omega
      have hdle : 3 * ((gatherFlat batchSize topk B tIdx).length / 3)
          ≤ (gatherFlat batchSize topk B tIdx).length := Nat.mul_div_le _ 3
      intro hc
      have hclen : r1.length = B * topk := by
        rw [hc, correctBatchRow_length]
      omega
    · rw [if_neg hmod] at heq
      exact absurd heq (by simp)

/-- Witness for C10: with configured batch size 2, `topk = 1` and a batch
of two items, the reshaped gather rows pair pick `k` of item `b` with
batch index `b` and its own spatial index. -/
theorem gather_index_pairing_witness :
    gatherIndexRows 2 1 2 [[0], [1]] = some ([0, 1], [0, 1], [0, 0]) := by
  have h := (gather_index_pairing 2 1 2 [[0], [1]] rfl (by decide) (by decide)).1
    (by decide)
  rw [h]
  rfl

/-! ### Per-class counting through the nms path (C6, C8, C9) -/

lemma absQ_of_nonneg {x : ℚ} (h : 0 ≤ x) : absQ x = x := by
  unfold absQ
  rw [if_neg (not_lt.2 h)]

lemma countClass_of_const_id (c v : ℚ) :
    ∀ (l : List Det), (∀ r ∈ l, r.id = v) →
      countClass c l = if v = c then l.length else 0
  | [], _ => by simp [countClass]
  | r :: l, h => by
    have hr : r.id = v := h r (List.mem_cons_self _ _)
    have ih := countClass_of_const_id c v l
      fun q hq => h q (List.mem_cons_of_mem _ hq)
    unfold countClass at ih ⊢
    by_cases hvc : v = c
    · rw [List.filter_cons_of_pos (by simp [hr, hvc]), List.length_cons, ih,
        if_pos hvc, if_pos hvc, List.length_cons]
    · rw [List.filter_cons_of_neg (by simp [hr, hvc]), ih, if_neg hvc,
        if_neg hvc]

lemma countClass_map_scale (c s : ℚ) (l : List Det) :
    countClass c (l.map (scaleBoxDet s)) = countClass c l := by
  unfold countClass
  rw [List.filter_map, List.length_map]
  congr 1

lemma countClass_flatMap (c : ℚ) (g : ℚ → List Det) :
    ∀ (uids : List ℚ),
      countClass c (uids.flatMap g) = ((uids.map fun u => countClass c (g u)).sum)
  | [] => rfl
  | u :: uids => by
    simp only [List.flatMap_cons, List.map_cons, List.sum_cons, countClass,
      List.filter_append, List.length_append]
    have ih := countClass_flatMap c g uids
    unfold countClass at ih
    rw [ih]

lemma countClass_nmsSimple_part (c u : ℚ) (rows : List Det)
    (hu : u = -1 ∨ 0 ≤ u) (hc0 : 0 ≤ c) (hc1 : c ≠ 1) :
    countClass c (nmsSimple (rows.filter fun r => decide (r.id = u)))
      = countClass c (rows.filter fun r => decide (r.id = u)) := by
  have hids : ∀ r ∈ (rows.filter fun r => decide (r.id = u)), r.id = u := by
    intro r hr
    have h2 := (List.mem_filter.1 hr).2
    simpa using h2
  unfold nmsSimple
  split
  · rfl
  · have hids2 : ∀ r ∈ sortScoreDesc (rows.filter fun r => decide (r.id = u)),
        r.id = u := fun r hr =>
      hids r ((List.perm_insertionSort _ _).mem_iff.1 hr)
    have habs : ∀ r ∈ (sortScoreDesc
        (rows.filter fun r => decide (r.id = u))).map absDet, r.id = absQ u := by
      intro r hr
      rcases List.mem_map.1 hr with ⟨q, hq, hqe⟩
      rw [← hqe]
      show absQ q.id = absQ u
      rw [hids2 q hq]
    rw [countClass_of_const_id c (absQ u) _ habs,
      countClass_of_const_id c u _ hids, List.length_map, sortScoreDesc,
      List.length_insertionSort]
    have hiff : (absQ u = c) ↔ (u = c) := by
      rcases hu with h | h
      · subst h
        have h1 : absQ (-1 : ℚ) = 1 := by norm_num [absQ]
        rw [h1]
        constructor
        · intro he
          exact absurd he.symm hc1
        · intro he
          exfalso
          rw [← he] at hc0
          norm_num at hc0
      · rw [absQ_of_nonneg h]
    by_cases hc : u = c
    · rw [if_pos hc, if_pos (hiff.2 hc)]
    · rw [if_neg hc, if_neg fun he => hc (hiff.1 he)]

lemma sum_countClass_filter (c : ℚ) (uids : List ℚ) (rows : List Det)
    (hn : uids.Nodup) (hcov : ∀ r ∈ rows, r.id ∈ uids) :
    ((uids.map fun u =>
      countClass c (rows.filter fun r => decide (r.id = u))).sum)
      = countClass c rows := by
  have hmapeq : (uids.map fun u =>
      countClass c (rows.filter fun r => decide (r.id = u)))
      = uids.map fun u =>
        ((rows.filter fun r => decide (r.id = c)).filter fun r =>
          decide (r.id = u)).length := by
    refine List.map_congr_left fun u _ => ?_
    unfold countClass
    rw [List.filter_comm]
  rw [hmapeq, sum_filter_length (rows.filter fun r => decide (r.id = c)) uids hn
    fun r hr => hcov r (List.mem_of_mem_filter hr)]
  rfl

/-- C6 (amended): for every class id `c >= 0` other than 1, the number of
detections of class `c` per batch item is exactly the same with nms
enabled as with nms disabled (the suppression step removes nothing and
only relabels ids through the absolute value); the claimed inequality can
only fail at class 1, where gated sentinel rows of a multi-member
partition are relabelled from -1 to +1. -/
theorem nms_preserves_offclass_counts (t s c : ℚ) (uids : List ℚ)
    (rows : List Det) (hn : uids.Nodup) (hcov : ∀ r ∈ rows, r.id ∈ uids)
    (hw : ∀ u ∈ uids, u = -1 ∨ 0 ≤ u) (hc0 : 0 ≤ c) (hc1 : c ≠ 1) :
    countClass c (nmsPathItem t s uids rows)
      = countClass c (rows.map (scaleBoxDet s)) := by
  rw [countClass_map_scale]
  unfold nmsPathItem
  rw [countClass_map_scale, countClass_flatMap]
  have hmapeq : (uids.map fun u =>
      countClass c (nmsCore t (rows.filter fun r => decide (r.id = u))))
      = uids.map fun u =>
        countClass c (rows.filter fun r => decide (r.id = u)) := by
    refine List.map_congr_left fun u hu => ?_
    rw [nmsCore_eq_nmsSimple]
    exact countClass_nmsSimple_part c u rows (hw u hu) hc0 hc1
  rw [hmapeq]
  exact sum_countClass_filter c uids rows hn hcov

/-- Witness for the amended C6 at a concrete input: one surviving class-0
row and one gated sentinel row; the class-0 count is 1 on both paths. -/
theorem nms_preserves_offclass_counts_witness :
    countClass 0 (nmsPathItem (1/2) 4 [-1, 0]
        [⟨0, 3/4, 0, 0, 0, 0⟩, ⟨-1, -1, -1, -1, -1, -1⟩])
      = countClass 0 ([⟨0, 3/4, 0, 0, 0, 0⟩,
          ⟨-1, -1, -1, -1, -1, -1⟩].map (scaleBoxDet 4)) := by
  refine nms_preserves_offclass_counts (1/2) 4 0 [-1, 0] _ ?_ ?_ ?_ le_rfl
    (by norm_num)
  · norm_num
  · intro r hr
    rcases List.mem_cons.1 hr with h | h
    · rw [h]
      norm_num
    · rcases List.mem_cons.1 h with h1 | h1
      · rw [h1]
        norm_num
      · exact absurd h1 (List.not_mem_nil r)
  · intro u hu
    rcases List.mem_cons.1 hu with h | h
    · exact Or.inl h
    · rcases List.mem_cons.1 h with h1 | h1
      · exact Or.inr (by rw [h1])
      · exact absurd h1 (List.not_mem_nil u)

/-- C9 (amended): when every class partition has size other than 1, every
component of the nms output is nonnegative (for a nonnegative scale):
multi-member partitions are componentwise absolute-valued, so the gated
sentinel rows among them return with classId and score +1.  The
counterexample shows a singleton partition passing through unchanged with
its -1 values. -/
theorem nms_output_nonneg_unless_singleton (t s : ℚ) (uids : List ℚ)
    (rows : List Det) (d : Det) (hs : 0 ≤ s)
    (hpart : ∀ u ∈ uids,
      ((rows.filter fun r => decide (r.id = u)).length ≠ 1))
    (hd : d ∈ nmsPathItem t s uids rows) :
    0 ≤ d.id ∧ 0 ≤ d.score ∧ 0 ≤ d.xmin ∧ 0 ≤ d.ymin ∧ 0 ≤ d.xmax ∧
      0 ≤ d.ymax := by
  unfold nmsPathItem at hd
  rcases List.mem_map.1 hd with ⟨e, he, hde⟩
  rcases List.mem_flatMap.1 he with ⟨u, hu, heu⟩
  rw [nmsCore_eq_nmsSimple] at heu
  unfold nmsSimple at heu
  rw [if_neg (hpart u hu)] at heu
  rcases List.mem_map.1 heu with ⟨q, _, hqe⟩
  rw [← hde, ← hqe]
  simp only [scaleBoxDet, absDet]
  exact ⟨absQ_nonneg _, absQ_nonneg _, mul_nonneg (absQ_nonneg _) hs,
    mul_nonneg (absQ_nonneg _) hs, mul_nonneg (absQ_nonneg _) hs,
    mul_nonneg (absQ_nonneg _) hs⟩

/-- Witness for the amended C9: two gated rows form one partition of size
2, and the suppressed output row obtained from them is componentwise
nonnegative. -/
theorem nms_output_nonneg_unless_singleton_witness :
    0 ≤ ((nmsPathItem (1/2) 4 [-1]
        [⟨-1, -1, -1, -1, -1, -1⟩, ⟨-1, -1, -1, -1, -1, -1⟩]).getD 0 det0).id ∧
    0 ≤ ((nmsPathItem (1/2) 4 [-1]
        [⟨-1, -1, -1, -1, -1, -1⟩, ⟨-1, -1, -1, -1, -1, -1⟩]).getD 0 det0).score := by
  have hlen : (nmsPathItem (1/2) 4 [-1]
      [⟨-1, -1, -1, -1, -1, -1⟩, ⟨-1, -1, -1, -1, -1, -1⟩]).length = 2 := by
    refine nmsPathItem_length (1/2) 4 [-1] _ (by norm_num) ?_
    intro r hr
    rcases List.mem_cons.1 hr with h | h
    · rw [h]
      exact List.mem_cons_self _ _
    · rcases List.mem_cons.1 h with h1 | h1
      · rw [h1]
        exact List.mem_cons_self _ _
      · exact absurd h1 (List.not_mem_nil r)
  have h0 : 0 < (nmsPathItem (1/2) 4 [-1]
      [⟨-1, -1, -1, -1, -1, -1⟩, ⟨-1, -1, -1, -1, -1, -1⟩]).length := by
    rw [hlen]
    norm_num
  have hmem : (nmsPathItem (1/2) 4 [-1]
      [⟨-1, -1, -1, -1, -1, -1⟩, ⟨-1, -1, -1, -1, -1, -1⟩]).getD 0 det0
      ∈ nmsPathItem (1/2) 4 [-1]
        [⟨-1, -1, -1, -1, -1, -1⟩, ⟨-1, -1, -1, -1, -1, -1⟩] := by
    rw [List.getD_eq_getElem?_getD, List.getElem?_eq_getElem h0,
      Option.getD_some]
    exact List.getElem_mem h0
  have h := nms_output_nonneg_unless_singleton (1/2) 4 [-1] _ _ (by norm_num)
    ?_ hmem
  · exact ⟨h.1, h.2.1⟩
  · intro u hu
    rcases List.mem_cons.1 hu with h1 | h1
    · rw [h1]
      norm_num [List.filter]
    · exact absurd h1 (List.not_mem_nil u)

/-- C8 (amended): with nms enabled the per-item results are not restored
to the original pick order; they are concatenated grouped by class id in
the ascending, duplicate-free order produced by `unique`, each class
partition suppressed in place (single rows unchanged, larger partitions
sorted by descending score and componentwise absolute-valued), and then
the box coordinates are multiplied by the scale. -/
theorem nmsPathItem_class_grouped (t s : ℚ) (batch : List (List Det))
    (rows : List Det) :
    List.Sorted (· ≤ ·) (uniqueIdsOf batch) ∧ (uniqueIdsOf batch).Nodup ∧
    nmsPathItem t s (uniqueIdsOf batch) rows =
      ((uniqueIdsOf batch).flatMap fun u =>
        nmsSimple (rows.filter fun r => decide (r.id = u))).map
          (scaleBoxDet s) := by
  refine ⟨?_, ?_, ?_⟩
  · unfold uniqueIdsOf
    exact List.sorted_insertionSort _ _
  · unfold uniqueIdsOf
    exact ((List.perm_insertionSort _ _).nodup_iff).2 (List.nodup_dedup _)
  · unfold nmsPathItem
    have h : (fun u => nmsCore t (rows.filter fun r => decide (r.id = u)))
        = fun u => nmsSimple (rows.filter fun r => decide (r.id = u)) :=
      funext fun u => nmsCore_eq_nmsSimple t _
    rw [h]

/-! ### Forward-level facts (C2, C3, C7) -/

lemma topkTake_length {k : ℕ} {l : List ℚ} (hk : k ≤ l.length) :
    (topkTake k l).length = k := by
  unfold topkTake
  rw [List.length_take, List.length_insertionSort, List.enum_length]
  exact min_eq_left hk

lemma flatFiltered_length (hm : ℕ → ℕ → ℕ → ℚ) (C H W : ℕ) :
    (flatFiltered hm C H W).length = C * H * W := by
  unfold flatFiltered
  rw [List.length_map, List.length_range]

lemma forwardItems_length (cfg : PredCfg) (hm off wh : ℕ → ℕ → ℕ → ℕ → ℚ)
    (B C H W : ℕ) : (forwardItems cfg hm off wh B C H W).length = B := by
  unfold forwardItems
  rw [List.length_map, List.length_range]

lemma forwardItems_rows_length (cfg : PredCfg)
    (hm off wh : ℕ → ℕ → ℕ → ℕ → ℚ) (B C H W : ℕ)
    (hk : cfg.topk ≤ C * H * W) :
    ∀ rows ∈ forwardItems cfg hm off wh B C H W, rows.length = cfg.topk := by
  intro rows hrows
  rcases List.mem_map.1 hrows with ⟨bb, _, hbb⟩
  rw [← hbb, List.length_map,
    topkTake_length (by rw [flatFiltered_length]; exact hk)]

lemma uniqueIdsOf_nodup (batch : List (List Det)) :
    (uniqueIdsOf batch).Nodup :=
  ((List.perm_insertionSort _ _).nodup_iff).2 (List.nodup_dedup _)

lemma mem_uniqueIdsOf {batch : List (List Det)} {rows : List Det} {r : Det}
    (hrows : rows ∈ batch) (hr : r ∈ rows) : r.id ∈ uniqueIdsOf batch := by
  unfold uniqueIdsOf
  rw [(List.perm_insertionSort _ _).mem_iff, List.mem_dedup]
  exact List.mem_flatten.2 ⟨rows.map Det.id, List.mem_map_of_mem _ hrows,
    List.mem_map_of_mem _ hr⟩

/-- C3 (amended): when `topk` does not exceed the flattened size
`C*H*W`, the batch fits in the configured batch size, and the nms
configuration is not the invalid-threshold combination, the forward pass
completes and returns exactly `topk` rows for every batch item, on both
the nms and the plain path.  The counterexample shows that for
`topk > C*H*W` the forward pass raises instead of filling missing
candidates. -/
theorem forward_row_count_eq_topk (cfg : PredCfg)
    (hm off wh : ℕ → ℕ → ℕ → ℕ → ℚ) (B C H W b : ℕ)
    (hB : B ≤ cfg.batchSize) (hk : cfg.topk ≤ C * H * W)
    (hcfg : cfg.nms = false ∨ (0 < cfg.nmsThresh ∧ cfg.nmsThresh < 1))
    (hb : b < B) :
    forward cfg hm off wh B C H W ≠ none ∧
    ((forward cfg hm off wh B C H W).getD []).length = B ∧
    (((forward cfg hm off wh B C H W).getD []).getD b []).length
      = cfg.topk := by
  have hguard : B ≤ cfg.batchSize ∧ cfg.topk ≤ C * H * W := ⟨hB, hk⟩
  have hil := forwardItems_length cfg hm off wh B C H W
  have hrl := forwardItems_rows_length cfg hm off wh B C H W hk
  have hbit : b < (forwardItems cfg hm off wh B C H W).length := by
    rw [hil]
    exact hb
  cases hnb : cfg.nms with
  | false =>
    have hfwd : forward cfg hm off wh B C H W
        = some ((forwardItems cfg hm off wh B C H W).map fun rows =>
            rows.map (scaleBoxDet cfg.scale)) := by
      unfold forward
      rw [if_pos hguard, hnb]
      simp
    refine ⟨by rw [hfwd]; simp, ?_, ?_⟩
    · rw [hfwd, Option.getD_some, List.length_map, hil]
    · rw [hfwd, Option.getD_some, List.getD_eq_getElem?_getD,
        List.getElem?_map, List.getElem?_eq_getElem hbit, Option.map_some',
        Option.getD_some, List.length_map]
      exact hrl _ (List.getElem_mem hbit)
  | true =>
    have hv : 0 < cfg.nmsThresh ∧ cfg.nmsThresh < 1 :=
      hcfg.resolve_left (by simp [hnb])
    have hfwd : forward cfg hm off wh B C H W
        = some ((forwardItems cfg hm off wh B C H W).map
            (nmsPathItem cfg.nmsThresh cfg.scale
              (uniqueIdsOf (forwardItems cfg hm off wh B C H W)))) := by
      unfold forward
      rw [if_pos hguard, hnb]
      simp [hv]
    refine ⟨by rw [hfwd]; simp, ?_, ?_⟩
    · rw [hfwd, Option.getD_some, List.length_map, hil]
    · rw [hfwd, Option.getD_some, List.getD_eq_getElem?_getD,
        List.getElem?_map, List.getElem?_eq_getElem hbit, Option.map_some',
        Option.getD_some]
      rw [nmsPathItem_length _ _ _ _
        (uniqueIdsOf_nodup (forwardItems cfg hm off wh B C H W))
        (fun r hr => mem_uniqueIdsOf (List.getElem_mem hbit) hr)]
      exact hrl _ (List.getElem_mem hbit)

/-- Constant 4-argument tensor used for concrete inputs. -/
def constMap4 (q : ℚ) : ℕ → ℕ → ℕ → ℕ → ℚ := fun _ _ _ _ => q

/-- Witness for the amended C3 at a concrete input. -/
theorem forward_row_count_eq_topk_witness :
    forward ⟨1, 1, 4, false, 1/100, 1/2⟩ (constMap4 (1/200)) (constMap4 0)
        (constMap4 0) 1 1 1 1 ≠ none ∧
    ((forward ⟨1, 1, 4, false, 1/100, 1/2⟩ (constMap4 (1/200)) (constMap4 0)
        (constMap4 0) 1 1 1 1).getD []).length = 1 ∧
    (((forward ⟨1, 1, 4, false, 1/100, 1/2⟩ (constMap4 (1/200)) (constMap4 0)
        (constMap4 0) 1 1 1 1).getD []).getD 0 []).length = 1 :=
  forward_row_count_eq_topk ⟨1, 1, 4, false, 1/100, 1/2⟩ (constMap4 (1/200))
    (constMap4 0) (constMap4 0) 1 1 1 1 0 (by norm_num) (by norm_num)
    (Or.inl rfl) (by norm_num)

/-- Counterexample to C3 as stated: a 1-class 1x1 heatmap has
`C*H*W = 1 >= 1`, but with `topk = 2` the forward pass raises (the `topk`
call rejects `k` larger than the ranked axis) instead of returning two
padded rows. -/
theorem forward_errors_when_topk_exceeds_grid :
    forward ⟨1, 2, 4, false, 1/100, 1/2⟩ (constMap4 (1/200)) (constMap4 0)
      (constMap4 0) 1 1 1 1 = none := by
  norm_num [forward]

/-- C2 (amended): with nms disabled, a detection whose pre-gating score
does not exceed `exceptClassThresh` is returned with classId -1, score -1
and all four box coordinates equal to `-scale` (the sentinel boxes of
lines 141-144 are multiplied by the scale at line 187), not -1 as the
claim states for every scale. -/
theorem forward_gated_row_is_scaled_sentinel (cfg : PredCfg)
    (hm off wh : ℕ → ℕ → ℕ → ℕ → ℚ) (B C H W b k : ℕ)
    (hB : B ≤ cfg.batchSize) (hk : cfg.topk ≤ C * H * W)
    (hnms : cfg.nms = false) (hb : b < B) (hkk : k < cfg.topk)
    (hgate : ((topkTake cfg.topk (flatFiltered (hm b) C H W)).getD k (0, 0)).2
      ≤ cfg.exceptClassThresh) :
    (((forward cfg hm off wh B C H W).getD []).getD b []).getD k det0
      = ⟨-1, -1, -cfg.scale, -cfg.scale, -cfg.scale, -cfg.scale⟩ := by
  have hguard : B ≤ cfg.batchSize ∧ cfg.topk ≤ C * H * W := ⟨hB, hk⟩
  have hfwd : forward cfg hm off wh B C H W
      = some ((forwardItems cfg hm off wh B C H W).map fun rows =>
          rows.map (scaleBoxDet cfg.scale)) := by
    unfold forward
    rw [if_pos hguard, hnms]
    simp
  have hklt : k < (topkTake cfg.topk (flatFiltered (hm b) C H W)).length := by
    rw [topkTake_length (by rw [flatFiltered_length]; exact hk)]
    exact hkk
  set pick := (topkTake cfg.topk (flatFiltered (hm b) C H W)).getD k (0, 0)
    with hpickdef
  have hpick : (topkTake cfg.topk (flatFiltered (hm b) C H W))[k]?
      = some pick := by
    rw [hpickdef, List.getD_eq_getElem?_getD,
      List.getElem?_eq_getElem hklt, Option.getD_some]
  have hitemb : (forwardItems cfg hm off wh B C H W)[b]?
      = some ((topkTake cfg.topk (flatFiltered (hm b) C H W)).map fun p =>
          gateDet cfg.exceptClassThresh (reconDet (off b) (wh b) H W p)) := by
    unfold forwardItems
    rw [List.getElem?_map, List.getElem?_range hb, Option.map_some']
  simp only [hfwd, Option.getD_some, List.getD_eq_getElem?_getD,
    List.getElem?_map, hitemb, Option.map_some', hpick]
  have hng : ¬ (cfg.exceptClassThresh <
      (reconDet (off b) (wh b) H W pick).score) := not_lt.2 hgate
  rw [gateDet, if_neg hng]
  simp [scaleBoxDet, sentinelDet, neg_one_mul]

/-- Witness for the amended C2: a 1x1 heatmap with value 1/200 below the
threshold 1/100 and scale 4 yields the row (-1, -1, -4, -4, -4, -4). -/
theorem forward_gated_row_is_scaled_sentinel_witness :
    (((forward ⟨1, 1, 4, false, 1/100, 1/2⟩ (constMap4 (1/200)) (constMap4 0)
        (constMap4 0) 1 1 1 1).getD []).getD 0 []).getD 0 det0
      = ⟨-1, -1, -4, -4, -4, -4⟩ :=
  forward_gated_row_is_scaled_sentinel ⟨1, 1, 4, false, 1/100, 1/2⟩
    (constMap4 (1/200)) (constMap4 0) (constMap4 0) 1 1 1 1 0 0
    (by norm_num) (by norm_num) rfl (by norm_num) (by norm_num)
    (by norm_num [topkTake, flatFiltered, peakFilter, poolMax, nbhd,
      constMap4, List.range_succ, List.enum, List.enumFrom,
      List.insertionSort, List.orderedInsert, List.filter, List.flatMap])

/-- Counterexample to C2 as stated: with scale 4 and nms disabled, the
gated row of the returned tensors is (-1, -1, -4, -4, -4, -4) — the box
coordinates are not -1. -/
theorem forward_gated_row_not_exact_sentinel :
    (((forward ⟨1, 1, 4, false, 1/100, 1/2⟩ (constMap4 (1/200)) (constMap4 0)
        (constMap4 0) 1 1 1 1).getD []).getD 0 []).getD 0 det0
        = ⟨-1, -1, -4, -4, -4, -4⟩ ∧
    (((forward ⟨1, 1, 4, false, 1/100, 1/2⟩ (constMap4 (1/200)) (constMap4 0)
        (constMap4 0) 1 1 1 1).getD []).getD 0 []).getD 0 det0
        ≠ sentinelDet := by
  constructor
  · norm_num [forward, forwardItems, flatFiltered, topkTake, peakFilter,
      poolMax, nbhd, reconDet, offsetReshaped, gateDet, sentinelDet,
      scaleBoxDet, constMap4, List.range_succ, List.enum, List.enumFrom,
      List.insertionSort, List.orderedInsert, List.filter, List.flatMap]
  · norm_num [forward, forwardItems, flatFiltered, topkTake, peakFilter,
      poolMax, nbhd, reconDet, offsetReshaped, gateDet, sentinelDet,
      scaleBoxDet, constMap4, List.range_succ, List.enum, List.enumFrom,
      List.insertionSort, List.orderedInsert, List.filter, List.flatMap,
      det0, Det.mk.injEq]

/-- C7 (amended): the constructor performs no validation at all, so an
invalid `nmsThresh` is not rejected at configuration time; instead, when
nms is enabled with a threshold outside (0,1), every forward call fails
(the branch of lines 147-182 is skipped and line 184 returns an unbound
variable).  `topk <= 0` and `scale <= 0` are never rejected anywhere. -/
theorem forward_none_of_invalid_nms_thresh (cfg : PredCfg)
    (hm off wh : ℕ → ℕ → ℕ → ℕ → ℚ) (B C H W : ℕ)
    (hnms : cfg.nms = true)
    (hth : ¬(0 < cfg.nmsThresh ∧ cfg.nmsThresh < 1)) :
    forward cfg hm off wh B C H W = none := by
  unfold forward
  rw [hnms]
  simp [hth]

/-- Witness for the amended C7 at a concrete configuration. -/
theorem forward_none_of_invalid_nms_thresh_witness :
    forward (initPrediction 1 1 4 true (1/100) 2) (constMap4 (1/200))
      (constMap4 0) (constMap4 0) 1 1 1 1 = none :=
  forward_none_of_invalid_nms_thresh (initPrediction 1 1 4 true (1/100) 2)
    (constMap4 (1/200)) (constMap4 0) (constMap4 0) 1 1 1 1 rfl
    (by norm_num [initPrediction])

/-- Counterexample to C7 as stated: constructing the predictor with
`nms = true` and `nmsThresh = 2` outside (0,1) succeeds and simply stores
the values — nothing fails before a forward call; the failure happens
inside the first forward invocation. -/
theorem init_accepts_invalid_nms_thresh :
    initPrediction 1 1 4 true (1/100) 2 = ⟨1, 1, 4, true, 1/100, 2⟩ ∧
    forward (initPrediction 1 1 4 true (1/100) 2) (constMap4 (1/200))
      (constMap4 0) (constMap4 0) 1 1 1 1 = none := by
  constructor
  · rfl
  · norm_num [forward, initPrediction]

/-! ### Concrete counterexamples on the nms path (C6, C8, C9) -/

/-- A 1x2 heatmap channel with one peak at column 0 and a smaller value at
column 1, used as a concrete input. -/
def hmMix : ℕ → ℕ → ℕ → ℕ → ℚ := fun _ _ _ x => if x = 0 then 3/4 else 1/4

/-- Counterexample to C6 as stated: on a 1-class 1x2 heatmap that is zero
everywhere with `exceptClassThresh = 0`, both top-2 picks are gated to the
sentinel (classId -1).  With nms disabled, class 1 has 0 detections; with
nms enabled the two sentinel rows form a 2-member partition whose ids are
relabelled to +1 by the absolute-value step, so class 1 has 2 non-sentinel
detections: enabling nms strictly increased a per-class count. -/
theorem nms_increases_class_one_count :
    ¬ (countClass 1 (((forward ⟨1, 2, 4, true, 0, 1/2⟩ (constMap4 0)
          (constMap4 0) (constMap4 0) 1 1 1 2).getD []).getD 0 [])
        ≤ countClass 1 (((forward ⟨1, 2, 4, false, 0, 1/2⟩ (constMap4 0)
          (constMap4 0) (constMap4 0) 1 1 1 2).getD []).getD 0 [])) := by
  norm_num [forward, forwardItems, flatFiltered, topkTake, peakFilter,
    poolMax, nbhd, reconDet, offsetReshaped, gateDet, sentinelDet,
    scaleBoxDet, constMap4, List.range_succ, List.enum, List.enumFrom,
    List.insertionSort, List.orderedInsert, List.filter, List.flatMap,
    uniqueIdsOf, List.dedup, nmsPathItem, nmsCore, nmsMask, updateSuffix,
    sortScoreDesc, smulDet, absDet, absQ, overlapQ, interHeur, countClass,
    max_def, det0]

/-- Counterexample to C9 as stated: one pick above the threshold (class 0)
and one gated pick produce the unique ids [-1, 0], so both class
partitions are singletons and `_non_maximum_suppression` returns them
unchanged: the first output row of the nms-enabled forward pass is
(-1, -1, -4, -4, -4, -4), so -1 sentinel values do appear and the output
is not componentwise nonnegative. -/
theorem nms_output_contains_sentinel :
    (((forward ⟨1, 2, 4, true, 1/100, 1/2⟩ hmMix (constMap4 0) (constMap4 0)
        1 1 1 2).getD []).getD 0 []).getD 0 det0
      = ⟨-1, -1, -4, -4, -4, -4⟩ := by
  norm_num [forward, forwardItems, flatFiltered, topkTake, peakFilter,
    poolMax, nbhd, reconDet, offsetReshaped, gateDet, sentinelDet,
    scaleBoxDet, constMap4, hmMix, List.range_succ, List.enum,
    List.enumFrom, List.insertionSort, List.orderedInsert, List.filter,
    List.flatMap, uniqueIdsOf, List.dedup, nmsPathItem, nmsCore, nmsMask,
    updateSuffix, sortScoreDesc, smulDet, absDet, absQ, overlapQ,
    interHeur, max_def, det0]

/-- Counterexample to C8 as stated: two picks with class ids 1 and 0 (in
descending score order) come back from the nms path in ascending class-id
order [0, 1] — output slot 0 does not correspond to the first top-k pick,
whose class id is 1. -/
theorem nms_path_reorders_picks :
    (nmsPathItem (1/2) 1
        (uniqueIdsOf [[⟨1, 9/10, 0, 0, 1, 1⟩, ⟨0, 4/5, 5, 5, 6, 6⟩]])
        [⟨1, 9/10, 0, 0, 1, 1⟩, ⟨0, 4/5, 5, 5, 6, 6⟩]).map Det.id = [0, 1] ∧
    ([⟨1, 9/10, 0, 0, 1, 1⟩, ⟨0, 4/5, 5, 5, 6, 6⟩] : List Det).map Det.id
      = [1, 0] := by
  constructor
  · norm_num [nmsPathItem, nmsCore, uniqueIdsOf, List.dedup,
      List.insertionSort, List.orderedInsert, List.filter, List.flatMap,
      scaleBoxDet]
  · norm_num

end CenterNetPred
